import Mathlib

/-!
# Verification of the FastAPI in-memory CRUD demo (`src/app.py`)

Shallow embedding of the single-resource CRUD service in `app.py`:
a FastAPI application over an in-memory SQLite database accessed through
SQLAlchemy.  The database table `items` is a SQLite rowid table
(`id INTEGER PRIMARY KEY`, no `AUTOINCREMENT`), so:

* a newly inserted row receives rowid `max(existing rowids) + 1`, or `1`
  when the table is empty (SQLite rowid allocation without
  `AUTOINCREMENT`);
* because every insert therefore gets an id strictly above all ids
  currently present, a full table scan (`db.query(ItemModel).all()`,
  which returns rows in rowid order) coincides with insertion order, so
  the store is modelled as a `List` kept in insertion order;
* the declared column lengths `String(100)` / `String(500)` are *not*
  enforced by SQLite, and no pydantic length validators exist, so the
  embedding stores strings of any length, exactly as the running code
  does.

`price` is `Float` in the code; no arithmetic is ever performed on it
(values are stored and returned verbatim), so it is modelled as an exact
rational `Rat`.  Ids are modelled as `Int` (SQLite rowids are signed
integers, and the `item_id` path parameter is a Python `int`).
-/

namespace App

/-- The SQLAlchemy model `ItemModel` (table `items`): one stored row.
`description` is nullable; the other columns are always populated by the
handlers. -/
structure ItemModel where
  id : Int
  name : String
  description : Option String
  price : Rat
deriving DecidableEq, Repr

/-- The pydantic request model `ItemCreate` (= `ItemBase`): a validated
request body for POST `/items` and PUT `/items/{item_id}`. -/
structure ItemCreate where
  name : String
  description : Option String
  price : Rat
deriving DecidableEq, Repr

/-- The ids of the rows currently in the store, in rowid order. -/
def itemIds (s : List ItemModel) : List Int :=
  s.map (fun it => it.id)

/-- SQLite rowid allocation for a rowid table without `AUTOINCREMENT`:
one more than the largest rowid in use, or `1` when the table is empty.
All reachable stores have positive ids, for which `foldr max 0` is the
maximum (and it is `0` on the empty store, giving id `1`). -/
def nextId (s : List ItemModel) : Int :=
  (itemIds s).foldr max 0 + 1

/-- `db.query(ItemModel).filter(ItemModel.id == item_id).first()`:
the first row (in rowid order) whose id equals `item_id`. -/
def find_item : List ItemModel → Int → Option ItemModel
  | [], _ => none
  | it :: rest, i => if it.id = i then some it else find_item rest i

/-- The `setattr` loop of `update_item`: overwrite `name`, `description`
and `price` of the first row whose id is `i` (the id column is not in
`item.model_dump()`, so it is untouched). -/
def setFirst : List ItemModel → Int → ItemCreate → List ItemModel
  | [], _, _ => []
  | it :: rest, i, b =>
    if it.id = i then ⟨it.id, b.name, b.description, b.price⟩ :: rest
    else it :: setFirst rest i b

/-- `db.delete(db_item)`: remove the first row whose id is `i`. -/
def eraseFirst : List ItemModel → Int → List ItemModel
  | [], _ => []
  | it :: rest, i => if it.id = i then rest else it :: eraseFirst rest i

/-- A `fastapi.HTTPException`: status code plus the `detail` string that
FastAPI serializes as the JSON body `{"detail": <detail>}`. -/
structure HTTPException where
  status : Nat
  detail : String
deriving DecidableEq, Repr

/-- The 404 exception raised by `get_item`, `update_item` and
`delete_item` when no row has the requested id. -/
def notFound (item_id : Int) : HTTPException :=
  ⟨404, "Item with ID " ++ toString item_id ++ " not found"⟩

/-- Handler `get_all_items`: `db.query(ItemModel).all()` returns every
row in rowid order, which for this table is insertion order. -/
def get_all_items (s : List ItemModel) : List ItemModel :=
  s

/-- Handler `get_item` (store part): the matching row, or a 404
`HTTPException` if there is none.  It does not mutate the store. -/
def get_item (s : List ItemModel) (item_id : Int) : Except HTTPException ItemModel :=
  match find_item s item_id with
  | none => .error (notFound item_id)
  | some it => .ok it

/-- Handler `create_item` (store part): insert a new row built from the
validated body; SQLite assigns it rowid `nextId s`.  Returns the
refreshed row (including its id) and the new store. -/
def create_item (s : List ItemModel) (b : ItemCreate) : ItemModel × List ItemModel :=
  let new_item : ItemModel := ⟨nextId s, b.name, b.description, b.price⟩
  (new_item, s ++ [new_item])

/-- Handler `update_item` (store part): 404 if no row has the id;
otherwise overwrite `name`, `description`, `price` of that row in place
(id unchanged) and return the refreshed row and the new store. -/
def update_item (s : List ItemModel) (item_id : Int) (b : ItemCreate) :
    Except HTTPException ItemModel × List ItemModel :=
  match find_item s item_id with
  | none => (.error (notFound item_id), s)
  | some db_item => (.ok ⟨db_item.id, b.name, b.description, b.price⟩, setFirst s item_id b)

/-- Handler `delete_item` (store part): 404 if no row has the id;
otherwise remove that row and return `None` (no body). -/
def delete_item (s : List ItemModel) (item_id : Int) :
    Except HTTPException Unit × List ItemModel :=
  match find_item s item_id with
  | none => (.error (notFound item_id), s)
  | some _ => (.ok (), eraseFirst s item_id)

/-- One `db.add(item)` of `seed_data`: insert a row; SQLite assigns the
next rowid. -/
def insertRow (s : List ItemModel) (name : String) (descr : Option String)
    (price : Rat) : List ItemModel :=
  s ++ [⟨nextId s, name, descr, price⟩]

/-- `seed_data()`: the three sample rows added to the fresh database
when the module loads, in order Laptop, Smartphone, Headphones. -/
def seed_data : List ItemModel :=
  insertRow
    (insertRow
      (insertRow [] "Laptop" (some "A powerful laptop for development") (mkRat 129999 100))
      "Smartphone" (some "Latest smartphone model") (mkRat 89999 100))
    "Headphones" (some "Noise-cancelling headphones") (mkRat 24999 100)

/-- The store of a freshly started service: `seed_data()` has run, no
client request has mutated the table yet. -/
def initialStore : List ItemModel :=
  seed_data

/-! ## Request bodies and pydantic validation

POST `/items` and PUT `/items/{item_id}` declare a body of pydantic
model `ItemCreate` (`name: str`, `description: Optional[str] = None`,
`price: float`).  FastAPI parses the JSON body and validates it; on
failure it answers 422 without running the handler. -/

/-- A JSON value, as decoded from a request body. -/
inductive JsonValue where
  | null : JsonValue
  | bool : Bool → JsonValue
  | num : Rat → JsonValue
  | str : String → JsonValue
  | arr : List JsonValue → JsonValue
  | obj : List (String × JsonValue) → JsonValue

/-- An optional leading sign, split off the rest of a numeric string. -/
def decodeSign (t : String) : Rat × String :=
  if t.startsWith "-" then (-1, t.drop 1)
  else if t.startsWith "+" then (1, t.drop 1) else (1, t)

/-- An unsigned decimal mantissa: `12`, `12.5`, `12.` or `.5` (integer
part, fractional part, or both). -/
def decodeUnsigned (t : String) : Option Rat :=
  match t.split (fun c => c = '.') with
  | [w] => (w.toNat?).map (fun n => (n : Rat))
  | [w, f] =>
    if w.isEmpty && f.isEmpty then none
    else
      match (if w.isEmpty then some 0 else w.toNat?),
            (if f.isEmpty then some 0 else f.toNat?) with
      | some n, some m => some ((n : Rat) + (m : Rat) / ((10 : Rat) ^ f.length))
      | _, _ => none
  | _ => none

/-- A decimal exponent with optional sign, as in `1e5` or `2E-3`. -/
def decodeExp (t : String) : Option Int :=
  let s := decodeSign t
  (s.2.toNat?).map (fun n => if s.1 = -1 then -(n : Int) else (n : Int))

/-- Pydantic's lax coercion of a JSON string to `float`, as an exact
rational: optional sign, decimal mantissa, optional decimal exponent
(`29.99`, `1e5`, `.5`, `12.`, `-2.5E-3`, ...).  The IEEE `inf`/`nan`
spellings pydantic also accepts are not representable as rationals and
are not modelled, and neither is whitespace trimming; for that reason no
422 theorem below quantifies over string-valued `price` fields at all
(see `priceRejected`), so no statement depends on exactly which strings
this function accepts. -/
def decodeDecimal (t : String) : Option Rat :=
  let s := decodeSign t
  match s.2.split (fun c => c == 'e' || c == 'E') with
  | [m] => (decodeUnsigned m).map (fun q => s.1 * q)
  | [m, e] =>
    match decodeUnsigned m, decodeExp e with
    | some q, some k => some (s.1 * q * (10 : Rat) ^ k)
    | _, _ => none
  | _ => none

/-- Pydantic validation of the `name: str` field: present and a JSON
string (pydantic v2 does not coerce numbers or booleans to `str`). -/
def validateName (fields : List (String × JsonValue)) : Except String String :=
  match fields.lookup "name" with
  | some (.str n) => .ok n
  | some _ => .error "name: input should be a valid string"
  | none => .error "name: field required"

/-- Pydantic validation of the `description: Optional[str] = None`
field: absent or JSON `null` give `None`; a JSON string is kept. -/
def validateDescr (fields : List (String × JsonValue)) : Except String (Option String) :=
  match fields.lookup "description" with
  | none => .ok none
  | some .null => .ok none
  | some (.str d) => .ok (some d)
  | some _ => .error "description: input should be a valid string"

/-- Pydantic validation of the `price: float` field: a JSON number, or
(lax mode) a numeric JSON string; `null`, booleans, arrays and objects
are rejected, as is an absent field. -/
def validatePrice (fields : List (String × JsonValue)) : Except String Rat :=
  match fields.lookup "price" with
  | some (.num q) => .ok q
  | some (.str t) =>
    match decodeDecimal t with
    | some q => .ok q
    | none => .error "price: input should be a valid number"
  | some _ => .error "price: input should be a valid number"
  | none => .error "price: field required"

/-- Validation of the three declared fields of an object body: all three
must validate; otherwise the list of field errors is reported. -/
def parseFields (fields : List (String × JsonValue)) : Except (List String) ItemCreate :=
  match validateName fields, validateDescr fields, validatePrice fields with
  | .ok n, .ok d, .ok p => .ok ⟨n, d, p⟩
  | rn, rd, rp =>
    .error (((match rn with | .error e => [e] | .ok _ => []) ++
             (match rd with | .error e => [e] | .ok _ => [])) ++
             (match rp with | .error e => [e] | .ok _ => []))

/-- FastAPI parsing of a request body into `ItemCreate`: the body must
be a JSON object whose declared fields all validate; otherwise the
field-level errors are reported (as a 422). -/
def parseItemCreate (body : JsonValue) : Except (List String) ItemCreate :=
  match body with
  | .obj fields => parseFields fields
  | _ => .error ["body: input should be a valid dictionary"]

/-! ## The HTTP surface -/

/-- A response body, abstracting the JSON FastAPI sends:
`empty` is the bodiless 204 response; `message` is the root greeting;
`itemJson` is one item serialized through `ItemResponse`
(`{id, name, description, price}`); `itemsJson` is a JSON array of
those; `detailJson t` is `{"detail": t}` (404); `validationDetail` is
the 422 body, whose field-level contents FastAPI generates and which is
not modelled further. -/
inductive RespBody where
  | empty : RespBody
  | message : String → RespBody
  | itemJson : ItemModel → RespBody
  | itemsJson : List ItemModel → RespBody
  | detailJson : String → RespBody
  | validationDetail : RespBody
deriving DecidableEq, Repr

/-- An HTTP response: status code and body. -/
structure Response where
  status : Nat
  body : RespBody
deriving DecidableEq, Repr

/-- GET `/`: the fixed greeting, status 200. -/
def http_root : Response :=
  ⟨200, .message "Welcome to FastAPI with SQLite in-memory database!"⟩

/-- GET `/items`: 200 with all rows; never mutates the store. -/
def http_get_all_items (s : List ItemModel) : Response × List ItemModel :=
  (⟨200, .itemsJson (get_all_items s)⟩, s)

/-- GET `/items/{item_id}`: 200 with the row, or 404 with
`{"detail": "Item with ID {item_id} not found"}`. -/
def http_get_item (s : List ItemModel) (item_id : Int) : Response × List ItemModel :=
  match get_item s item_id with
  | .ok it => (⟨200, .itemJson it⟩, s)
  | .error e => (⟨e.status, .detailJson e.detail⟩, s)

/-- POST `/items`: 422 if the body fails validation (handler never
runs); otherwise 201 with the created row. -/
def http_create_item (s : List ItemModel) (body : JsonValue) : Response × List ItemModel :=
  match parseItemCreate body with
  | .error _ => (⟨422, .validationDetail⟩, s)
  | .ok b =>
    let r := create_item s b
    (⟨201, .itemJson r.1⟩, r.2)

/-- PUT `/items/{item_id}`: 422 if the body fails validation (handler
never runs, even when the id is absent); otherwise 200 with the updated
row or 404. -/
def http_update_item (s : List ItemModel) (item_id : Int) (body : JsonValue) :
    Response × List ItemModel :=
  match parseItemCreate body with
  | .error _ => (⟨422, .validationDetail⟩, s)
  | .ok b =>
    match update_item s item_id b with
    | (.ok it, s') => (⟨200, .itemJson it⟩, s')
    | (.error e, s') => (⟨e.status, .detailJson e.detail⟩, s')

/-- DELETE `/items/{item_id}`: 204 with no body, or 404. -/
def http_delete_item (s : List ItemModel) (item_id : Int) : Response × List ItemModel :=
  match delete_item s item_id with
  | (.ok _, s') => (⟨204, .empty⟩, s')
  | (.error e, s') => (⟨e.status, .detailJson e.detail⟩, s')

/-! ## Reachable store states

The states the running service's table can be in: the seeded initial
store, closed under the three mutating endpoints. -/

/-- Store states reachable by the service: the seeded store, followed by
any sequence of (validated) create, update and delete operations. -/
inductive Reachable : List ItemModel → Prop where
  | init : Reachable initialStore
  | create (s : List ItemModel) (b : ItemCreate) :
      Reachable s → Reachable (create_item s b).2
  | update (s : List ItemModel) (item_id : Int) (b : ItemCreate) :
      Reachable s → Reachable (update_item s item_id b).2
  | delete (s : List ItemModel) (item_id : Int) :
      Reachable s → Reachable (delete_item s item_id).2

/-! ## Lemmas about the store operations -/

@[simp]
theorem itemIds_nil : itemIds [] = [] :=
  rfl

@[simp]
theorem itemIds_cons (a : ItemModel) (t : List ItemModel) :
    itemIds (a :: t) = a.id :: itemIds t :=
  rfl

theorem itemIds_append (s t : List ItemModel) :
    itemIds (s ++ t) = itemIds s ++ itemIds t := by
  simp [itemIds]

theorem mem_itemIds {s : List ItemModel} {i : Int} :
    i ∈ itemIds s ↔ ∃ it ∈ s, it.id = i := by
  simp [itemIds]

theorem le_foldr_max (l : List Int) (x : Int) (hx : x ∈ l) : x ≤ l.foldr max 0 := by
  induction l with
  | nil => cases hx
  | cons a t ih =>
    rcases List.mem_cons.mp hx with h | h
    · subst h; exact le_max_left _ _
    · exact le_trans (ih h) (le_max_right _ _)

theorem foldr_max_nonneg (l : List Int) : 0 ≤ l.foldr max 0 := by
  induction l with
  | nil => exact le_refl 0
  | cons a t ih => exact le_trans ih (le_max_right _ _)

theorem foldr_max_mem (l : List Int) (hne : l ≠ []) (hpos : ∀ x ∈ l, 0 < x) :
    l.foldr max 0 ∈ l := by
  induction l with
  | nil => exact absurd rfl hne
  | cons a t ih =>
    cases t with
    | nil =>
      have ha : 0 < a := hpos a (List.mem_cons_self a [])
      show max a (List.foldr max 0 []) ∈ [a]
      rw [show List.foldr max 0 ([] : List Int) = 0 from rfl, max_eq_left (le_of_lt ha)]
      exact List.mem_cons_self a []
    | cons b u =>
      have hmem := ih (by simp) (fun x hx => hpos x (List.mem_cons_of_mem a hx))
      show max a (List.foldr max 0 (b :: u)) ∈ a :: b :: u
      rcases max_choice a (List.foldr max 0 (b :: u)) with h | h
      · rw [h]; exact List.mem_cons_self a (b :: u)
      · rw [h]; exact List.mem_cons_of_mem a hmem

theorem mem_id_lt_nextId {s : List ItemModel} {it : ItemModel} (h : it ∈ s) :
    it.id < nextId s := by
  have hm : it.id ∈ itemIds s := List.mem_map.mpr ⟨it, h, rfl⟩
  exact Int.lt_add_one_iff.mpr (le_foldr_max _ _ hm)

theorem mem_itemIds_lt_nextId {s : List ItemModel} {i : Int} (h : i ∈ itemIds s) :
    i < nextId s :=
  Int.lt_add_one_iff.mpr (le_foldr_max _ _ h)

theorem nextId_pos (s : List ItemModel) : 0 < nextId s :=
  Int.lt_add_one_iff.mpr (foldr_max_nonneg _)

theorem find_item_eq_none {s : List ItemModel} {i : Int} (h : i ∉ itemIds s) :
    find_item s i = none := by
  induction s with
  | nil => rfl
  | cons a t ih =>
    simp only [itemIds_cons, List.mem_cons, not_or] at h
    simp only [find_item]
    rw [if_neg (fun he => h.1 he.symm)]
    exact ih h.2

theorem find_item_eq_some {s : List ItemModel} {i : Int} {it : ItemModel}
    (h : find_item s i = some it) : it.id = i ∧ it ∈ s := by
  induction s with
  | nil => cases h
  | cons a t ih =>
    simp only [find_item] at h
    by_cases ha : a.id = i
    · rw [if_pos ha, Option.some_inj] at h
      subst h
      exact ⟨ha, List.mem_cons_self a t⟩
    · rw [if_neg ha] at h
      rcases ih h with ⟨h1, h2⟩
      exact ⟨h1, List.mem_cons_of_mem a h2⟩

theorem find_item_of_mem {s : List ItemModel} {i : Int} (h : i ∈ itemIds s) :
    ∃ it, find_item s i = some it := by
  induction s with
  | nil => simp [itemIds] at h
  | cons a t ih =>
    simp only [find_item]
    by_cases ha : a.id = i
    · exact ⟨a, if_pos ha⟩
    · rw [if_neg ha]
      apply ih
      simp only [itemIds_cons, List.mem_cons] at h
      rcases h with h | h
      · exact absurd h.symm ha
      · exact h

theorem find_item_append {s t : List ItemModel} {i : Int} (h : i ∉ itemIds s) :
    find_item (s ++ t) i = find_item t i := by
  induction s with
  | nil => rfl
  | cons a u ih =>
    simp only [itemIds_cons, List.mem_cons, not_or] at h
    simp only [List.cons_append, find_item]
    rw [if_neg (fun he => h.1 he.symm)]
    exact ih h.2

theorem itemIds_setFirst (s : List ItemModel) (i : Int) (b : ItemCreate) :
    itemIds (setFirst s i b) = itemIds s := by
  induction s with
  | nil => rfl
  | cons a t ih =>
    simp only [setFirst]
    by_cases ha : a.id = i
    · rw [if_pos ha, itemIds_cons, itemIds_cons]
    · rw [if_neg ha, itemIds_cons, itemIds_cons, ih]

theorem find_item_setFirst_self {s : List ItemModel} {i : Int} (b : ItemCreate)
    (h : i ∈ itemIds s) :
    find_item (setFirst s i b) i = some ⟨i, b.name, b.description, b.price⟩ := by
  induction s with
  | nil => simp [itemIds] at h
  | cons a t ih =>
    simp only [setFirst]
    by_cases ha : a.id = i
    · rw [if_pos ha]
      simp only [find_item]
      rw [if_pos ha, ha]
    · rw [if_neg ha]
      simp only [find_item]
      rw [if_neg ha]
      apply ih
      simp only [itemIds_cons, List.mem_cons] at h
      rcases h with h | h
      · exact absurd h.symm ha
      · exact h

theorem find_item_setFirst_ne (s : List ItemModel) (i : Int) (b : ItemCreate)
    {j : Int} (hji : j ≠ i) :
    find_item (setFirst s i b) j = find_item s j := by
  induction s with
  | nil => rfl
  | cons a t ih =>
    simp only [setFirst]
    by_cases ha : a.id = i
    · rw [if_pos ha]
      simp only [find_item]
      rw [if_neg (fun he => hji (he.symm.trans ha)), if_neg (fun he => hji (he.symm.trans ha))]
    · rw [if_neg ha]
      simp only [find_item]
      by_cases haj : a.id = j
      · rw [if_pos haj, if_pos haj]
      · rw [if_neg haj, if_neg haj]
        exact ih

theorem eraseFirst_sublist (s : List ItemModel) (i : Int) :
    (eraseFirst s i).Sublist s := by
  induction s with
  | nil => exact List.Sublist.refl []
  | cons a t ih =>
    simp only [eraseFirst]
    by_cases ha : a.id = i
    · rw [if_pos ha]; exact List.sublist_cons_self a t
    · rw [if_neg ha]; exact List.Sublist.cons₂ a ih

theorem itemIds_eraseFirst_sublist (s : List ItemModel) (i : Int) :
    (itemIds (eraseFirst s i)).Sublist (itemIds s) := by
  unfold itemIds
  exact List.Sublist.map (fun it => it.id) (eraseFirst_sublist s i)

theorem not_mem_itemIds_eraseFirst {s : List ItemModel} {i : Int}
    (hnd : (itemIds s).Nodup) : i ∉ itemIds (eraseFirst s i) := by
  induction s with
  | nil => simp [eraseFirst, itemIds]
  | cons a t ih =>
    rw [itemIds_cons] at hnd
    rcases List.nodup_cons.mp hnd with ⟨hna, hnt⟩
    simp only [eraseFirst]
    by_cases ha : a.id = i
    · rw [if_pos ha]
      subst ha
      exact hna
    · rw [if_neg ha, itemIds_cons]
      simp only [List.mem_cons, not_or]
      exact ⟨fun he => ha he.symm, ih hnt⟩

theorem mem_eraseFirst_of_ne {s : List ItemModel} {i : Int} {it : ItemModel}
    (h : it ∈ s) (hne : it.id ≠ i) : it ∈ eraseFirst s i := by
  induction s with
  | nil => cases h
  | cons a t ih =>
    simp only [eraseFirst]
    rcases List.mem_cons.mp h with rfl | hm
    · rw [if_neg hne]
      exact List.mem_cons_self it (eraseFirst t i)
    · by_cases ha : a.id = i
      · rw [if_pos ha]; exact hm
      · rw [if_neg ha]; exact List.mem_cons_of_mem a (ih hm)

theorem mem_of_mem_eraseFirst {s : List ItemModel} {i : Int} {it : ItemModel}
    (h : it ∈ eraseFirst s i) : it ∈ s :=
  (eraseFirst_sublist s i).subset h

/-! ## Unfolding lemmas for the handlers -/

theorem create_item_fst (s : List ItemModel) (b : ItemCreate) :
    (create_item s b).1 = ⟨nextId s, b.name, b.description, b.price⟩ :=
  rfl

theorem create_item_snd (s : List ItemModel) (b : ItemCreate) :
    (create_item s b).2 = s ++ [⟨nextId s, b.name, b.description, b.price⟩] :=
  rfl

theorem get_item_none {s : List ItemModel} {i : Int} (h : find_item s i = none) :
    get_item s i = .error (notFound i) := by
  unfold get_item
  rw [h]

theorem get_item_some {s : List ItemModel} {i : Int} {it : ItemModel}
    (h : find_item s i = some it) : get_item s i = .ok it := by
  unfold get_item
  rw [h]

theorem update_item_none {s : List ItemModel} {i : Int} (b : ItemCreate)
    (h : find_item s i = none) :
    update_item s i b = (.error (notFound i), s) := by
  unfold update_item
  rw [h]

theorem update_item_some {s : List ItemModel} {i : Int} {it : ItemModel} (b : ItemCreate)
    (h : find_item s i = some it) :
    update_item s i b = (.ok ⟨it.id, b.name, b.description, b.price⟩, setFirst s i b) := by
  unfold update_item
  rw [h]

theorem delete_item_none {s : List ItemModel} {i : Int}
    (h : find_item s i = none) :
    delete_item s i = (.error (notFound i), s) := by
  unfold delete_item
  rw [h]

theorem delete_item_some {s : List ItemModel} {i : Int} {it : ItemModel}
    (h : find_item s i = some it) :
    delete_item s i = (.ok (), eraseFirst s i) := by
  unfold delete_item
  rw [h]

/-! ## Invariants of reachable store states -/

theorem reachable_pos {s : List ItemModel} (h : Reachable s) :
    ∀ i ∈ itemIds s, 0 < i := by
  induction h with
  | init => decide
  | create s b _ ih =>
    intro i hi
    rw [create_item_snd, itemIds_append] at hi
    rcases List.mem_append.mp hi with h1 | h1
    · exact ih i h1
    · rw [itemIds_cons, itemIds_nil, List.mem_singleton] at h1
      subst h1
      exact nextId_pos s
  | update s item_id b _ ih =>
    intro i hi
    cases hfind : find_item s item_id with
    | none => rw [update_item_none b hfind] at hi; exact ih i hi
    | some it =>
      rw [update_item_some b hfind] at hi
      rw [itemIds_setFirst] at hi
      exact ih i hi
  | delete s item_id _ ih =>
    intro i hi
    cases hfind : find_item s item_id with
    | none => rw [delete_item_none hfind] at hi; exact ih i hi
    | some it =>
      rw [delete_item_some hfind] at hi
      exact ih i ((itemIds_eraseFirst_sublist s item_id).subset hi)

theorem reachable_nodup {s : List ItemModel} (h : Reachable s) :
    (itemIds s).Nodup := by
  induction h with
  | init => decide
  | create s b _ ih =>
    rw [create_item_snd, itemIds_append, itemIds_cons, itemIds_nil]
    refine List.Nodup.append ih (List.nodup_singleton _) ?_
    intro x hx hx'
    rw [List.mem_singleton] at hx'
    have hx2 : x = nextId s := hx'
    exact absurd hx2 (ne_of_lt (mem_itemIds_lt_nextId hx))
  | update s item_id b _ ih =>
    cases hfind : find_item s item_id with
    | none => rw [update_item_none b hfind]; exact ih
    | some it => rw [update_item_some b hfind, itemIds_setFirst]; exact ih
  | delete s item_id _ ih =>
    cases hfind : find_item s item_id with
    | none => rw [delete_item_none hfind]; exact ih
    | some it =>
      rw [delete_item_some hfind]
      exact List.Nodup.sublist (itemIds_eraseFirst_sublist s item_id) ih

theorem http_get_item_404 {s : List ItemModel} {i : Int} (h : find_item s i = none) :
    http_get_item s i =
      (⟨404, .detailJson ("Item with ID " ++ toString i ++ " not found")⟩, s) := by
  unfold http_get_item
  rw [get_item_none h]
  rfl

theorem http_create_item_parsed (s : List ItemModel) {body : JsonValue}
    {b : ItemCreate} (hb : parseItemCreate body = .ok b) :
    http_create_item s body =
      (⟨201, .itemJson (create_item s b).1⟩, (create_item s b).2) := by
  unfold http_create_item
  rw [hb]

theorem http_update_item_parsed (s : List ItemModel) (i : Int) {body : JsonValue}
    {b : ItemCreate} (hb : parseItemCreate body = .ok b) :
    http_update_item s i body =
      (match update_item s i b with
       | (Except.ok it, s') => (⟨200, RespBody.itemJson it⟩, s')
       | (Except.error e, s') => (⟨e.status, RespBody.detailJson e.detail⟩, s')) := by
  unfold http_update_item
  rw [hb]

theorem http_update_item_404 {s : List ItemModel} (i : Int) {body : JsonValue}
    {b : ItemCreate} (hb : parseItemCreate body = .ok b) (h : find_item s i = none) :
    http_update_item s i body =
      (⟨404, .detailJson ("Item with ID " ++ toString i ++ " not found")⟩, s) := by
  rw [http_update_item_parsed s i hb, update_item_none b h]
  rfl

theorem http_delete_item_404 {s : List ItemModel} {i : Int} (h : find_item s i = none) :
    http_delete_item s i =
      (⟨404, .detailJson ("Item with ID " ++ toString i ++ " not found")⟩, s) := by
  unfold http_delete_item
  rw [delete_item_none h]
  rfl

/-! ## Shared concrete request data used by witnesses -/

/-- A well-formed POST/PUT body: `{"name": "Mouse", "price": 29.99}`
(description omitted). -/
def mouseBody : JsonValue :=
  .obj [("name", .str "Mouse"), ("price", .num (mkRat 2999 100))]

/-- The validated form of `mouseBody`. -/
def mouseCreate : ItemCreate :=
  ⟨"Mouse", none, mkRat 2999 100⟩

/-! ## The claims -/

/-- Claim C3: on a freshly started service, before any client request mutates
the store, GET `/items` answers 200 with exactly three items with ids 1, 2, 3
in creation order — Laptop at 1299.99, Smartphone at 899.99, Headphones at
249.99 — and leaves the store unchanged. -/
theorem C3_fresh_service_lists_three_seeded_items :
    http_get_all_items initialStore =
      (⟨200, .itemsJson
        [⟨1, "Laptop", some "A powerful laptop for development", mkRat 129999 100⟩,
         ⟨2, "Smartphone", some "Latest smartphone model", mkRat 89999 100⟩,
         ⟨3, "Headphones", some "Noise-cancelling headphones", mkRat 24999 100⟩]⟩,
       initialStore) := by
  decide

/-- Claim C7: for every store state and every validated create input,
performing create and then get with the returned id yields exactly the record
create returned, including the assigned id and all fields. -/
theorem C7_create_then_get_returns_created (s : List ItemModel) (b : ItemCreate) :
    get_item (create_item s b).2 (create_item s b).1.id = .ok (create_item s b).1 := by
  have hnot : nextId s ∉ itemIds s := fun hmem => lt_irrefl _ (mem_itemIds_lt_nextId hmem)
  show get_item (s ++ [⟨nextId s, b.name, b.description, b.price⟩]) (nextId s) =
    .ok ⟨nextId s, b.name, b.description, b.price⟩
  apply get_item_some
  rw [find_item_append hnot]
  simp [find_item]

/-- Claim C5: for every store state and every id not present in it, get,
update and delete on that id return the NotFound error and leave the store
state exactly unchanged. -/
theorem C5_not_found_never_mutates (s : List ItemModel) (i : Int) (b : ItemCreate)
    (h : i ∉ itemIds s) :
    get_item s i = .error (notFound i) ∧
    update_item s i b = (.error (notFound i), s) ∧
    delete_item s i = (.error (notFound i), s) := by
  have hf := find_item_eq_none h
  exact ⟨get_item_none hf, update_item_none b hf, delete_item_none hf⟩

/-- Witness for C5: id 99 is absent from the seeded store, and all three
operations on it return NotFound without touching the store. -/
theorem C5_witness :
    (99 : Int) ∉ itemIds initialStore ∧
    (get_item initialStore 99 = .error (notFound 99) ∧
     update_item initialStore 99 mouseCreate = (.error (notFound 99), initialStore) ∧
     delete_item initialStore 99 = (.error (notFound 99), initialStore)) :=
  ⟨by decide, C5_not_found_never_mutates initialStore 99 mouseCreate (by decide)⟩

/-- Claim C4: for every id not present in the store, GET, PUT (with a body
that validates) and DELETE on `/items/{id}` answer status 404 with body
`{"detail": "Item with ID {id} not found"}`, where `{id}` is the requested
id. -/
theorem C4_missing_id_gives_404_with_message (s : List ItemModel) (i : Int)
    (body : JsonValue) (b : ItemCreate)
    (h : i ∉ itemIds s) (hb : parseItemCreate body = .ok b) :
    http_get_item s i =
      (⟨404, .detailJson ("Item with ID " ++ toString i ++ " not found")⟩, s) ∧
    http_update_item s i body =
      (⟨404, .detailJson ("Item with ID " ++ toString i ++ " not found")⟩, s) ∧
    http_delete_item s i =
      (⟨404, .detailJson ("Item with ID " ++ toString i ++ " not found")⟩, s) := by
  have hf := find_item_eq_none h
  exact ⟨http_get_item_404 hf, http_update_item_404 i hb hf, http_delete_item_404 hf⟩

/-- Witness for C4: id 42 is absent from the seeded store and `mouseBody`
validates, so all three endpoints answer 404 with the exact detail string. -/
theorem C4_witness :
    (42 : Int) ∉ itemIds initialStore ∧
    parseItemCreate mouseBody = .ok mouseCreate ∧
    (http_get_item initialStore 42 =
      (⟨404, .detailJson ("Item with ID " ++ toString (42 : Int) ++ " not found")⟩, initialStore) ∧
     http_update_item initialStore 42 mouseBody =
      (⟨404, .detailJson ("Item with ID " ++ toString (42 : Int) ++ " not found")⟩, initialStore) ∧
     http_delete_item initialStore 42 =
      (⟨404, .detailJson ("Item with ID " ++ toString (42 : Int) ++ " not found")⟩, initialStore)) :=
  ⟨by decide, rfl,
   C4_missing_id_gives_404_with_message initialStore 42 mouseBody mouseCreate (by decide) rfl⟩

/-- Claim C1 is false on the code: the seeded store assigned id 3 (to
Headphones); after DELETE `/items/3`, the next create is assigned id 3 again,
so an id that was assigned and then deleted is reassigned to a later create
(and the ids assigned by successive creates — 1, 2, 3 for the seed and then 3
again — are not strictly increasing). -/
theorem C1_counterexample :
    3 ∈ itemIds initialStore ∧
    3 ∉ itemIds (delete_item initialStore 3).2 ∧
    (create_item (delete_item initialStore 3).2 mouseCreate).1.id = 3 := by
  decide

/-- Claim C1 (amended): for every sequence of create and delete operations,
each create assigns an id strictly greater than every id currently in the
store — so successive creates with no intervening delete assign strictly
increasing ids — but an id that has been assigned and deleted can be
reassigned to a later create once it exceeds every remaining id. -/
theorem C1_amended_create_id_exceeds_store (s : List ItemModel) (b b' : ItemCreate) :
    (∀ i ∈ itemIds s, i < (create_item s b).1.id) ∧
    (create_item s b).1.id < (create_item (create_item s b).2 b').1.id := by
  constructor
  · exact fun i hi => mem_itemIds_lt_nextId hi
  · show nextId s < nextId (create_item s b).2
    apply mem_itemIds_lt_nextId
    rw [create_item_snd, itemIds_append]
    refine List.mem_append.mpr (Or.inr ?_)
    rw [itemIds_cons, itemIds_nil]
    exact List.mem_singleton.mpr rfl

/-- Claim C2: for every reachable store state and every body that validates
(name and price present and well-typed), POST `/items` succeeds with 201,
returns the full record with id `nextId s`, appends exactly that record, and
the assigned id is 1 when the store is empty and otherwise the maximum id
currently in the store plus 1. -/
theorem C2_create_assigns_max_plus_one (s : List ItemModel) (body : JsonValue)
    (b : ItemCreate) (hs : Reachable s) (hb : parseItemCreate body = .ok b) :
    http_create_item s body =
      (⟨201, .itemJson ⟨nextId s, b.name, b.description, b.price⟩⟩,
        s ++ [⟨nextId s, b.name, b.description, b.price⟩]) ∧
    (s = [] → nextId s = 1) ∧
    (s ≠ [] → ∃ m, m ∈ itemIds s ∧ (∀ i ∈ itemIds s, i ≤ m) ∧ nextId s = m + 1) := by
  refine ⟨?_, ?_, ?_⟩
  · rw [http_create_item_parsed s hb]
    rfl
  · intro he; subst he; rfl
  · intro hne
    refine ⟨(itemIds s).foldr max 0, ?_, fun i hi => le_foldr_max _ _ hi, rfl⟩
    apply foldr_max_mem
    · intro h0
      apply hne
      unfold itemIds at h0
      exact List.map_eq_nil_iff.mp h0
    · exact fun x hx => reachable_pos hs x hx

/-- Witness for C2: the seeded store is reachable and `mouseBody` validates;
the create answers 201 with id 4 = max id 3 plus 1. -/
theorem C2_witness :
    Reachable initialStore ∧
    parseItemCreate mouseBody = .ok mouseCreate ∧
    http_create_item initialStore mouseBody =
      (⟨201, .itemJson ⟨4, "Mouse", none, mkRat 2999 100⟩⟩,
        initialStore ++ [⟨4, "Mouse", none, mkRat 2999 100⟩]) :=
  ⟨Reachable.init, rfl,
   (C2_create_assigns_max_plus_one initialStore mouseBody mouseCreate Reachable.init rfl).1⟩

/-- If the body parses and has no `description` key, the validated value has
`description = None` (pydantic applies the declared default). -/
theorem parse_descr_omitted {fields : List (String × JsonValue)} {c : ItemCreate}
    (h : parseItemCreate (.obj fields) = .ok c)
    (hd : fields.lookup "description" = none) : c.description = none := by
  have hdv : validateDescr fields = .ok none := by
    unfold validateDescr
    rw [hd]
  have h0 : parseFields fields = .ok c := h
  unfold parseFields at h0
  cases hn : validateName fields with
  | error e => rw [hn, hdv] at h0; cases h0
  | ok n =>
    cases hp : validatePrice fields with
    | error e => rw [hn, hdv, hp] at h0; cases h0
    | ok p =>
      rw [hn, hdv, hp] at h0
      have h' : Except.ok (⟨n, none, p⟩ : ItemCreate) = Except.ok c := h0
      injection h' with h2
      rw [← h2]

/-- Claim C6: for every id present in the store, update keeps that id,
overwrites name, description and price wholesale with the request values
(description becomes `None` when the body omits it), returns the updated
record, a subsequent get on the id returns exactly that record, and every
other id maps to the same row as before. -/
theorem C6_update_overwrites_wholesale (s : List ItemModel) (i : Int) (b : ItemCreate)
    (hi : i ∈ itemIds s) :
    (update_item s i b).1 = .ok ⟨i, b.name, b.description, b.price⟩ ∧
    get_item (update_item s i b).2 i = .ok ⟨i, b.name, b.description, b.price⟩ ∧
    (∀ j : Int, j ≠ i → find_item (update_item s i b).2 j = find_item s j) ∧
    (∀ fields : List (String × JsonValue), ∀ c : ItemCreate,
      parseItemCreate (.obj fields) = .ok c → fields.lookup "description" = none →
      c.description = none) := by
  rcases find_item_of_mem hi with ⟨it, hf⟩
  have hid : it.id = i := (find_item_eq_some hf).1
  refine ⟨?_, ?_, ?_, fun fields c hc hdesc => parse_descr_omitted hc hdesc⟩
  · rw [update_item_some b hf, hid]
  · rw [update_item_some b hf]
    exact get_item_some (find_item_setFirst_self b hi)
  · intro j hj
    rw [update_item_some b hf]
    exact find_item_setFirst_ne s i b hj

/-- Witness for C6: id 2 is present in the seeded store; updating it with
`mouseCreate` returns the record ⟨2, Mouse, None, 29.99⟩, which a subsequent
get reflects. -/
theorem C6_witness :
    (2 : Int) ∈ itemIds initialStore ∧
    (update_item initialStore 2 mouseCreate).1 = .ok ⟨2, "Mouse", none, mkRat 2999 100⟩ ∧
    get_item (update_item initialStore 2 mouseCreate).2 2 =
      .ok ⟨2, "Mouse", none, mkRat 2999 100⟩ :=
  ⟨by decide,
   (C6_update_overwrites_wholesale initialStore 2 mouseCreate (by decide)).1,
   (C6_update_overwrites_wholesale initialStore 2 mouseCreate (by decide)).2.1⟩

/-- Claim C8: for every reachable store and id present in it, DELETE answers
204 with an empty body and removes exactly that row: the id is gone from the
store, a subsequent get on it returns the NotFound error, a subsequent list
omits it, and every row with a different id survives. -/
theorem C8_delete_removes_permanently (s : List ItemModel) (i : Int)
    (hs : Reachable s) (hi : i ∈ itemIds s) :
    http_delete_item s i = (⟨204, .empty⟩, eraseFirst s i) ∧
    i ∉ itemIds (get_all_items (eraseFirst s i)) ∧
    get_item (eraseFirst s i) i = .error (notFound i) ∧
    (∀ it ∈ eraseFirst s i, it ∈ s) ∧
    (∀ it ∈ s, it.id ≠ i → it ∈ eraseFirst s i) := by
  rcases find_item_of_mem hi with ⟨it, hf⟩
  have hnot : i ∉ itemIds (eraseFirst s i) :=
    not_mem_itemIds_eraseFirst (reachable_nodup hs)
  refine ⟨?_, hnot, ?_, ?_, ?_⟩
  · unfold http_delete_item
    rw [delete_item_some hf]
  · exact get_item_none (find_item_eq_none hnot)
  · exact fun it h => mem_of_mem_eraseFirst h
  · exact fun it h hne => mem_eraseFirst_of_ne h hne

/-- Witness for C8: deleting id 1 from the seeded (reachable) store answers
204 with no body, and a get on id 1 afterwards returns the NotFound error. -/
theorem C8_witness :
    Reachable initialStore ∧ (1 : Int) ∈ itemIds initialStore ∧
    http_delete_item initialStore 1 = (⟨204, .empty⟩, eraseFirst initialStore 1) ∧
    get_item (eraseFirst initialStore 1) 1 = .error (notFound 1) :=
  ⟨Reachable.init, by decide,
   (C8_delete_removes_permanently initialStore 1 Reachable.init (by decide)).1,
   (C8_delete_removes_permanently initialStore 1 Reachable.init (by decide)).2.2.1⟩

/-! ## Validation failure (claim C9) -/

/-- A POST body whose name has 101 characters (SQLite ignores the declared
`String(100)` bound and pydantic has no length validator). -/
def longNameBody : JsonValue :=
  .obj [("name", .str (String.mk (List.replicate 101 'a'))), ("price", .num 1)]

/-- Claim C10 is violated by the code: POST with a 101-character name is
accepted (201) and the stored row's name has 101 > 100 characters — the
`String(100)` column length is not enforced by SQLite and no validator
bounds it. -/
theorem C10_long_name_is_stored :
    (http_create_item initialStore longNameBody).1.status = 201 ∧
    ∃ it ∈ (http_create_item initialStore longNameBody).2, 100 < it.name.length := by
  decide

end App
